import Mathlib

/-!
# Verification of the `abstra_json_sql` query engine

A shallow embedding of the core of the `abstra-app/json-sql` repository:
the expression/aggregate evaluator and the clause pipeline
(`abstra_json_sql/apply.py`), and the table stores
(`abstra_json_sql/tables.py`).  Python runtime values are embedded as the
inductive type `Value` (Python floats are modelled as rationals: none of
the verified properties depend on floating-point rounding); Python dicts
are embedded as association lists with Python insertion-order update
semantics; raising code is embedded with `Except String`.
-/

namespace JsonSql

/-- A runtime value of the engine: the JSON-ish values that rows, contexts
and expression evaluation produce.  `float` is modelled as a rational.
`obj` is a Python dict (association list in insertion order), `list` a
Python list. -/
inductive Value where
  | null : Value
  | bool (b : Bool) : Value
  | int (n : Int) : Value
  | float (q : Rat) : Value
  | str (s : String) : Value
  | list (vs : List Value) : Value
  | obj (fields : List (String × Value)) : Value

/-- A row (a Python dict keyed by column name). -/
abbrev Row := List (String × Value)

/-- An evaluation context: also a Python dict. -/
abbrev Ctx := List (String × Value)

/-- Dict lookup: first binding wins (dicts built with `dictSet` have unique
keys). -/
def dictLookup (d : Row) (k : String) : Option Value :=
  match d with
  | [] => none
  | (k', v) :: rest => if k' = k then some v else dictLookup rest k

/-- Python `k in d`. -/
def dictContains (d : Row) (k : String) : Bool :=
  (dictLookup d k).isSome

/-- Python `d[k] = v`: replace in place if the key exists, else append. -/
def dictSet (d : Row) (k : String) (v : Value) : Row :=
  match d with
  | [] => [(k, v)]
  | (k', v') :: rest =>
      if k' = k then (k', v) :: rest else (k', v') :: dictSet rest k v

/-- Python `{**a, **b}`: start from `a`, then set every binding of `b`. -/
def dictMerge (a b : Row) : Row :=
  b.foldl (fun acc kv => dictSet acc kv.1 kv.2) a

/-- Python `d.pop(k)` (drop the binding for `k`, keep order otherwise). -/
def dictRemove (d : Row) (k : String) : Row :=
  match d with
  | [] => []
  | (k', v) :: rest => if k' = k then rest else (k', v) :: dictRemove rest k

/-- Python numeric check `isinstance(x, (int, float))`.  In Python `bool`
is a subclass of `int`, so booleans count as numeric. -/
def Value.isNum : Value → Bool
  | .int _ => true
  | .float _ => true
  | .bool _ => true
  | _ => false

/-- The numeric content of a numeric value (`True` is 1, `False` is 0);
junk 0 elsewhere, always guarded by `isNum`. -/
def Value.num : Value → Rat
  | .int n => (n : Rat)
  | .float q => q
  | .bool b => if b then 1 else 0
  | _ => 0

/-- `int`-like values (Python `int`, including `bool`): arithmetic on two
of these yields an `int`. -/
def Value.isIntLike : Value → Bool
  | .int _ => true
  | .bool _ => true
  | _ => false

/-- The integer content of an `int`-like value (junk 0 elsewhere). -/
def Value.asInt : Value → Int
  | .int n => n
  | .bool b => if b then 1 else 0
  | _ => 0

/-- Result of Python `+`, `-`, `*` on two numeric values: `int` when both
operands are `int`-like, else `float`. -/
def numResult (f : Rat → Rat → Rat) (g : Int → Int → Int) (a b : Value) : Value :=
  if a.isIntLike && b.isIntLike then .int (g a.asInt b.asInt)
  else .float (f a.num b.num)

mutual

/-- Python `==` on values: numeric values compare by numeric content
(`1 == 1.0 == True`), strings and `None` structurally, lists elementwise.
Dicts are compared fieldwise in order (Python compares them by key set;
identical for the dicts these claims construct). -/
def pyEq : Value → Value → Bool
  | .str a, .str b => a = b
  | .null, .null => true
  | .list as, .list bs => pyEqList as bs
  | .obj as, .obj bs => pyEqFields as bs
  | a, b => a.isNum && b.isNum && (a.num = b.num)

def pyEqList : List Value → List Value → Bool
  | [], [] => true
  | a :: as, b :: bs => pyEq a b && pyEqList as bs
  | _, _ => false

def pyEqFields : List (String × Value) → List (String × Value) → Bool
  | [], [] => true
  | (k, a) :: as, (l, b) :: bs => k = l && pyEq a b && pyEqFields as bs
  | _, _ => false

end

mutual

/-- Python `<` on values: numeric pairs by numeric content, strings
lexicographically, lists lexicographically; every other pair raises
`TypeError`. -/
def pyLt : Value → Value → Except String Bool
  | .str a, .str b => .ok (a < b)
  | .list as, .list bs => pyLtList as bs
  | a, b =>
      if a.isNum && b.isNum then .ok (a.num < b.num)
      else .error "TypeError: unsupported comparison between instances"

def pyLtList : List Value → List Value → Except String Bool
  | [], [] => .ok false
  | [], _ :: _ => .ok true
  | _ :: _, [] => .ok false
  | a :: as, b :: bs => do
      if (← pyLt a b) then
        pure true
      else if pyEq a b then
        pyLtList as bs
      else
        pure false

end

/-- Python truthiness (`if value:`). -/
def Value.truthy : Value → Bool
  | .null => false
  | .bool b => b
  | .int n => n != 0
  | .float q => q != 0
  | .str s => s != ""
  | .list vs => !vs.isEmpty
  | .obj fs => !fs.isEmpty

/-- Modelled from the spec: the `Expression` AST (`ast.py` is imported by
the executor but missing from the source tree).  Spec §3: "a tagged union:
literal (string/int/float/bool/null), name reference, binary arithmetic
(`+ - * /`), binary comparison (`= <> > >= < <=`), function call (name +
ordered argument list), wildcard"; the constructor set is exactly the one
the executor `apply.py` pattern-matches on. -/
inductive Expression where
  | strLit (value : String) : Expression
  | intLit (value : Int) : Expression
  | floatLit (value : Rat) : Expression
  | name (n : String) : Expression
  | plus (left right : Expression) : Expression
  | minus (left right : Expression) : Expression
  | multiply (left right : Expression) : Expression
  | divide (left right : Expression) : Expression
  | equal (left right : Expression) : Expression
  | notEqual (left right : Expression) : Expression
  | greaterThan (left right : Expression) : Expression
  | greaterThanOrEqual (left right : Expression) : Expression
  | lessThan (left right : Expression) : Expression
  | lessThanOrEqual (left right : Expression) : Expression
  | call (fname : String) (args : List Expression) : Expression
  | wildcard : Expression

/-- Modelled from the spec: the `Select` AST and its clause nodes
(`ast.py` missing from the source tree), spec §3: `Select = {fields:
[SelectField], from: From?, where: Where?, group_by: GroupBy?, order_by:
OrderBy?, limit: Limit?}`, with the field names used by `apply.py`. -/
structure SelectField where
  expression : Expression
  alias_ : Option String := none

structure Join where
  table : String
  on_ : Expression

structure From where
  table : String
  join : List Join := []

structure Where where
  expression : Expression

structure GroupBy where
  fields : List Expression

structure OrderField where
  expression : Expression
  direction : String

structure OrderBy where
  fields : List OrderField

structure Limit where
  limit : Nat
  offset : Nat := 0

structure Select where
  field_parts : List SelectField
  from_part : Option From := none
  where_part : Option Where := none
  group_part : Option GroupBy := none
  order_part : Option OrderBy := none
  limit_part : Option Limit := none

/-- Python `str.lower()` (the engine only lowercases ASCII keywords and
function names). -/
def strLower (s : String) : String :=
  String.mk (s.data.map Char.toLower)

/-- Python `str.upper()`. -/
def strUpper (s : String) : String :=
  String.mk (s.data.map Char.toUpper)

/-- `is_aggregate_function` (apply.py:33). -/
def is_aggregate_function (name : String) : Bool :=
  strLower name ∈ ["sum", "avg", "count", "min", "max"]

/-- Helper for `field_name`: the name of an alias-less select field. -/
def fieldNameNoAlias : Expression → String
  | .name n => n
  | .call n _ => n
  | _ => "?column?"

/-- `field_name` (field_name.py:4): alias if truthy, else the bare name of
a name expression, else the function name of a call, else `?column?`. -/
def field_name (field : SelectField) : String :=
  match field.alias_ with
  | some a => if a ≠ "" then a else fieldNameNoAlias field.expression
  | none => fieldNameNoAlias field.expression

/-- Modelled from the spec: `expression_name`, imported by the executor
from `field_name.py` but missing from the source tree.  It names a group
expression the way `field_name` names an aliasless select field (bare
name, function name, or `?column?`): the spec (§4.4) has each group become
"a pseudo-row carrying its group-key fields". -/
def expression_name : Expression → String
  | .name n => n
  | .call n _ => n
  | _ => "?column?"

/-- The reserved context key holding the current aggregation group
(apply.py passim). -/
def groupedRowsKey : String := "__grouped_rows"

/-- `count(col)`: the length of `[row for row in rows if col in row and
row[col] is not None]` (apply.py:166).  A non-dict group member would make
the Python membership test fail, modelled as an error. -/
def countNonNull (col : String) : List Value → Except String Nat
  | [] => .ok 0
  | .obj fields :: rest => do
      let n ← countNonNull col rest
      match dictLookup fields col with
      | some .null => pure n
      | some _ => pure (n + 1)
      | none => pure n
  | _ :: _ => .error "TypeError: argument of type is not iterable"

mutual

/-- `apply_expression` (apply.py:38): evaluate an expression against a
context, failing on unknown variables, non-numeric operands of arithmetic
and ordering operators, division by zero, and unsupported function names.
Aggregate-classified functions other than `count` raise; `count` with an
argument that is neither `*` nor a name falls off the end of the Python
function and returns `None`. -/
def apply_expression (expression : Expression) (ctx : Ctx) : Except String Value :=
  match expression with
  | .strLit v => .ok (.str v)
  | .intLit v => .ok (.int v)
  | .floatLit v => .ok (.float v)
  | .name n =>
      if strLower n ∈ ["true", "false"] then
        .ok (.bool (strLower n = "true"))
      else
        match dictLookup ctx n with
        | some v => .ok v
        | none => .error s!"Unknown variable: {n}"
  | .plus l r => do
      let lv ← apply_expression l ctx
      let rv ← apply_expression r ctx
      if lv.isNum && rv.isNum then pure (numResult (· + ·) (· + ·) lv rv)
      else .error "Unsupported types for addition"
  | .minus l r => do
      let lv ← apply_expression l ctx
      let rv ← apply_expression r ctx
      if lv.isNum && rv.isNum then pure (numResult (· - ·) (· - ·) lv rv)
      else .error "Unsupported types for subtraction"
  | .multiply l r => do
      let lv ← apply_expression l ctx
      let rv ← apply_expression r ctx
      if lv.isNum && rv.isNum then pure (numResult (· * ·) (· * ·) lv rv)
      else .error "Unsupported types for multiplication"
  | .divide l r => do
      let lv ← apply_expression l ctx
      let rv ← apply_expression r ctx
      if lv.isNum && rv.isNum then
        if rv.num = 0 then .error "Division by zero"
        else pure (.float (lv.num / rv.num))
      else .error "Unsupported types for division"
  | .equal l r => do
      let lv ← apply_expression l ctx
      let rv ← apply_expression r ctx
      pure (.bool (pyEq lv rv))
  | .notEqual l r => do
      let lv ← apply_expression l ctx
      let rv ← apply_expression r ctx
      pure (.bool (!pyEq lv rv))
  | .greaterThan l r => do
      let lv ← apply_expression l ctx
      let rv ← apply_expression r ctx
      if lv.isNum && rv.isNum then pure (.bool (rv.num < lv.num))
      else .error "Unsupported types for greater than"
  | .greaterThanOrEqual l r => do
      let lv ← apply_expression l ctx
      let rv ← apply_expression r ctx
      if lv.isNum && rv.isNum then pure (.bool (rv.num ≤ lv.num))
      else .error "Unsupported types for greater than or equal"
  | .lessThan l r => do
      let lv ← apply_expression l ctx
      let rv ← apply_expression r ctx
      if lv.isNum && rv.isNum then pure (.bool (lv.num < rv.num))
      else .error "Unsupported types for less than"
  | .lessThanOrEqual l r => do
      let lv ← apply_expression l ctx
      let rv ← apply_expression r ctx
      if lv.isNum && rv.isNum then pure (.bool (lv.num ≤ rv.num))
      else .error "Unsupported types for less than or equal"
  | .call fname args =>
      if is_aggregate_function fname then
        if strLower fname = "count" then
          match args with
          | [arg] =>
              (match arg with
               | .wildcard =>
                   (match dictLookup ctx groupedRowsKey with
                    | some (.list rows) => .ok (.int rows.length)
                    | some _ => .error "TypeError: object has no len()"
                    | none => .error "KeyError: __grouped_rows")
               | .name coln =>
                   (match dictLookup ctx groupedRowsKey with
                    | some (.list rows) => do
                        let n ← countNonNull coln rows
                        pure (.int n)
                    | some _ => .error "TypeError: object is not iterable"
                    | none => .error "KeyError: __grouped_rows")
               | _ => .ok .null)
          | _ => .error "Count function requires one argument"
        else
          .error s!"Unknown aggregate function: {fname}"
      else do
        let argv ← apply_args args ctx
        if fname = "lower" then
          match argv with
          | .str s :: _ => pure (.str (strLower s))
          | _ :: _ => .error "lower function requires a string argument"
          | [] => .error "IndexError: list index out of range"
        else if fname = "upper" then
          match argv with
          | .str s :: _ => pure (.str (strUpper s))
          | _ :: _ => .error "upper function requires a string argument"
          | [] => .error "IndexError: list index out of range"
        else
          .error s!"Unknown function: {fname}"
  | .wildcard => .error "Unsupported expression type"

/-- Eager evaluation of a scalar function argument list (apply.py:177). -/
def apply_args (args : List Expression) (ctx : Ctx) : Except String (List Value) :=
  match args with
  | [] => .ok []
  | a :: rest => do
      let v ← apply_expression a ctx
      let vs ← apply_args rest ctx
      pure (v :: vs)

end

/-- Left-to-right effectful map over a list, stopping at the first
error (a Python `for` loop or comprehension over raising code). -/
def mapE (f : α → Except String β) : List α → Except String (List β)
  | [] => .ok []
  | a :: rest => do
      let b ← f a
      let bs ← mapE f rest
      pure (b :: bs)

/-- Left-to-right effectful filter (a Python comprehension with a raising
condition). -/
def filterE (p : α → Except String Bool) : List α → Except String (List α)
  | [] => .ok []
  | a :: rest => do
      if (← p a) then
        let l ← filterE p rest
        pure (a :: l)
      else
        filterE p rest

/-- Left fold with effects (a Python loop mutating state, raising on the
first error). -/
def foldE (f : σ → α → Except String σ) (init : σ) : List α → Except String σ
  | [] => .ok init
  | a :: rest => do foldE f (← f init a) rest

/-- `apply_where` (apply.py:194): keep rows whose predicate is the boolean
`True`, drop those where it is `False`, and raise on any other value. -/
def apply_where (w : Where) (data : List Row) (ctx : Ctx) : Except String (List Row) :=
  match data with
  | [] => .ok []
  | row :: rest => do
      let v ← apply_expression w.expression (dictMerge ctx row)
      match v with
      | .bool true => do
          let l ← apply_where w rest ctx
          pure (row :: l)
      | .bool false => apply_where w rest ctx
      | _ => .error "Where expressions should return bool"

/-- Stable insertion of `a` into `l` before the first element `b` with
`le a b` (effectful comparison, a Python sort comparing raising keys). -/
def orderedInsertE (le : α → α → Except String Bool) (a : α) : List α → Except String (List α)
  | [] => .ok [a]
  | b :: l => do
      if (← le a b) then
        pure (a :: b :: l)
      else
        let l' ← orderedInsertE le a l
        pure (b :: l')

/-- Stable sort with an effectful comparison; on lists whose comparisons
all succeed this computes exactly `List.insertionSort`. -/
def insertionSortE (le : α → α → Except String Bool) : List α → Except String (List α)
  | [] => .ok []
  | a :: l => do
      let l' ← insertionSortE le l
      orderedInsertE le a l'

/-- The comparison used by `data.sort(key=..., reverse=...)` on decorated
`(row, key)` pairs: stable ascending means `a` may precede `b` unless
`key b < key a`; `reverse=True` flips the comparison but keeps ties in
original order, exactly Python semantics. -/
def sortPairLe (reverse : Bool) (a b : Row × Value) : Except String Bool := do
  if reverse then
    let r ← pyLt a.2 b.2
    pure (!r)
  else
    let r ← pyLt b.2 a.2
    pure (!r)

/-- One `data.sort(key=lambda x: apply_expression(field, {**ctx, **x}),
reverse=(field.direction == "DESC"))` step (apply.py:209): the key is
computed once per row in list order, then the rows are sorted stably. -/
def sortByOrderField (f : OrderField) (ctx : Ctx) (data : List Row) :
    Except String (List Row) := do
  let pairs ← mapE (fun row => do
    let k ← apply_expression f.expression (dictMerge ctx row)
    pure (row, k)) data
  let sorted ← insertionSortE (sortPairLe (f.direction = "DESC")) pairs
  pure (sorted.map Prod.fst)

/-- `apply_order_by` (apply.py:207): one stable sort per ordering field,
iterating the declared field list. -/
def apply_order_by (ob : OrderBy) (data : List Row) (ctx : Ctx) :
    Except String (List Row) :=
  foldE (fun d f => sortByOrderField f ctx d) data ob.fields

/-- Insert a keyed row into the group list, Python-dict style: append the
row to the group with an `==`-equal key, else open a new group at the
end (dicts preserve first-occurrence key order). -/
def insertGroup (key : List Value) (row : Row) :
    List (List Value × List Row) → List (List Value × List Row)
  | [] => [(key, [row])]
  | (k, rows) :: rest =>
      if pyEqList k key then (k, rows ++ [row]) :: rest
      else (k, rows) :: insertGroup key row rest

/-- The pseudo-row for one group (apply.py:232): `__grouped_rows` holding
the member rows, then one field per group expression. -/
def groupPseudoRow (fields : List Expression) (key : List Value) (rows : List Row) : Row :=
  (fields.zip key).foldl (fun acc fk => dictSet acc (expression_name fk.1) fk.2)
    [(groupedRowsKey, Value.list (rows.map Value.obj))]

/-- `apply_group_by` (apply.py:216): group rows by the tuple of the group
expressions, keeping member order; with no groups (empty input) produce
one pseudo-row with null key fields over the whole (empty) input. -/
def apply_group_by (gb : GroupBy) (data : List Row) (ctx : Ctx) :
    Except String (List Row) := do
  let keyed ← mapE (fun row => do
    let key ← mapE (fun f => apply_expression f (dictMerge ctx row)) gb.fields
    pure (key, row)) data
  let groups := keyed.foldl (fun gs kr => insertGroup kr.1 kr.2 gs) []
  if groups.isEmpty then
    pure [gb.fields.foldl (fun acc f => dictSet acc (expression_name f) Value.null)
      [(groupedRowsKey, Value.list (data.map Value.obj))]]
  else
    pure (groups.map (fun g => groupPseudoRow gb.fields g.1 g.2))

/-- `apply_limit` (apply.py:241): the slice `data[offset : offset+limit]`. -/
def apply_limit (l : Limit) (data : List Row) : List Row :=
  (data.drop l.offset).take l.limit

/-- `has_implicit_aggregation` (apply.py:290): some selected field is a
call to an aggregate-classified function. -/
def has_implicit_aggregation (fields : List SelectField) : Bool :=
  fields.any (fun f =>
    match f.expression with
    | .call n _ => is_aggregate_function n
    | _ => false)

/-- `apply_select_fields` (apply.py:255): project each row through the
selected expressions; the context is the base context with a default
`__grouped_rows` bucket equal to the whole surviving row list, overridden
by the row itself. -/
def apply_select_fields (fields : List SelectField) (data : List Row) (ctx : Ctx) :
    Except String (List Row) :=
  mapE (fun row =>
    foldE (fun acc field => do
      let v ← apply_expression field.expression
        (dictMerge (dictSet ctx groupedRowsKey (Value.list (data.map Value.obj))) row)
      pure (dictSet acc (field_name field) v)) [] fields) data

/-- `ColumnType` (tables.py:8). -/
inductive ColumnType where
  | int | string | float | bool | null | unknown

/-- `ForeignKey` (tables.py:33). -/
structure ForeignKey where
  table : String
  column : String

/-- `Column` (tables.py:47); the Python default for `default` is `None`. -/
structure Column where
  name : String
  type : ColumnType
  is_primary_key : Bool := false
  foreign_key : Option ForeignKey := none
  default : Value := .null

/-- A table as the executor reads it (tables.py:106). -/
structure Table where
  name : String
  columns : List Column
  data : List Row

/-- The read half of the `ITablesSnapshot` contract consumed by the
executor: `get_table` returns the table, `none` for a missing one, or
raises (the file-backed stores raise on a missing file). -/
structure TablesView where
  get_table : String → Except String (Option Table)

/-- `apply_from` (apply.py:267): no `FROM` produces a single empty row;
otherwise fetch the table and nested-loop inner-join each `JOIN` table,
keeping merged rows whose `ON` expression is truthy (right fields
overwrite left ones). -/
def apply_from (from_part : Option From) (tables : TablesView) (ctx : Ctx) :
    Except String (List Row) := do
  match from_part with
  | none => pure [[]]
  | some fp =>
      match ← tables.get_table fp.table with
      | none => .error s!"Table {fp.table} not found"
      | some table =>
          foldE (fun data j => do
            match ← tables.get_table j.table with
            | none => .error s!"Table {j.table} not found"
            | some jt =>
                filterE (fun merged => do
                    let v ← apply_expression j.on_ (dictMerge ctx merged)
                    pure v.truthy)
                  (data.flatMap (fun row => jt.data.map (fun jrow => dictMerge row jrow))))
            table.data fp.join

/-- `apply_select` (apply.py:298): the clause pipeline in fixed order
FROM, WHERE, GROUP BY (explicit, or implicit when a selected field
aggregates), ORDER BY, LIMIT, projection; each stage consumes the
previous stage's row list and the first raising stage aborts the query
(written with explicit `Except.bind`). -/
def apply_select (s : Select) (tables : TablesView) (ctx : Ctx) :
    Except String (List Row) :=
  (apply_from s.from_part tables ctx).bind (fun data =>
  (match s.where_part with
    | some w => apply_where w data ctx
    | none => .ok data).bind (fun data =>
  (match s.group_part with
    | some g => apply_group_by g data ctx
    | none =>
        if has_implicit_aggregation s.field_parts then
          apply_group_by ⟨[]⟩ data ctx
        else
          .ok data).bind (fun data =>
  (match s.order_part with
    | some o => apply_order_by o data ctx
    | none => .ok data).bind (fun data =>
  let data := match s.limit_part with
    | some l => apply_limit l data
    | none => data
  if s.field_parts.isEmpty then
    .ok data
  else
    apply_select_fields s.field_parts data ctx))))

/-- Replace the first element satisfying `p` (a Python loop mutating the
first matching object and breaking/returning). -/
def modifyFirst (p : α → Bool) (f : α → α) : List α → List α
  | [] => []
  | a :: l => if p a then f a :: l else a :: modifyFirst p f l

/-- Python list indexing: a negative index counts from the end; out of
range yields `none` (an `IndexError`). -/
def pyIndex (len : Nat) (i : Int) : Option Nat :=
  let j := if i < 0 then i + len else i
  if 0 ≤ j ∧ j < len then some j.toNat else none

/-- `Table.get_column` (tables.py:112): first column with the name. -/
def Table.get_column (t : Table) (name : String) : Option Column :=
  t.columns.find? (fun c => c.name = name)

/-- `InMemoryTables` (tables.py:167): the whole store is a list of
tables; operations mutate it in place, modelled by state passing. -/
structure InMemoryTables where
  tables : List Table

namespace InMemoryTables

/-- tables.py:192: first table with the name, `None` if absent. -/
def get_table (s : InMemoryTables) (name : String) : Option Table :=
  s.tables.find? (fun t => t.name = name)

/-- tables.py:198. -/
def add_table (s : InMemoryTables) (t : Table) : Except String InMemoryTables :=
  match s.get_table t.name with
  | some _ => .error s!"Table {t.name} already exists"
  | none => .ok ⟨s.tables ++ [t]⟩

/-- tables.py:203. -/
def remove_table (s : InMemoryTables) (name : String) : Except String InMemoryTables :=
  .ok ⟨s.tables.filter (fun t => t.name ≠ name)⟩

/-- tables.py:206. -/
def rename_table (s : InMemoryTables) (old_name new_name : String) :
    Except String InMemoryTables :=
  match s.get_table old_name with
  | none => .error s!"Table {old_name} not found"
  | some _ =>
      match s.get_table new_name with
      | some _ => .error s!"Table {new_name} already exists"
      | none => .ok ⟨modifyFirst (fun t => t.name = old_name)
          (fun t => { t with name := new_name }) s.tables⟩

/-- tables.py:214. -/
def add_column (s : InMemoryTables) (table_name : String) (c : Column) :
    Except String InMemoryTables :=
  match s.get_table table_name with
  | none => .error s!"Table {table_name} not found"
  | some t =>
      match t.get_column c.name with
      | some _ => .error s!"Column {c.name} already exists in table {table_name}"
      | none => .ok ⟨modifyFirst (fun tb => tb.name = table_name)
          (fun tb => { tb with columns := tb.columns ++ [c] }) s.tables⟩

/-- tables.py:224. -/
def remove_column (s : InMemoryTables) (table_name column_name : String) :
    Except String InMemoryTables :=
  match s.get_table table_name with
  | none => .error s!"Table {table_name} not found"
  | some _ => .ok ⟨modifyFirst (fun tb => tb.name = table_name)
      (fun tb => { tb with columns := tb.columns.filter (fun c => c.name ≠ column_name) })
      s.tables⟩

/-- tables.py:230: only the matching column object's recorded name is
mutated; the table's row dicts are not touched. -/
def rename_column (s : InMemoryTables) (table_name old_name new_name : String) :
    Except String InMemoryTables :=
  match s.get_table table_name with
  | none => .error s!"Table {table_name} not found"
  | some t =>
      match t.get_column old_name with
      | none => .error s!"Column {old_name} not found in table {table_name}"
      | some _ => .ok ⟨modifyFirst (fun tb => tb.name = table_name)
          (fun tb =>
            let cols := modifyFirst (fun c => c.name = old_name)
              (fun c => { c with name := new_name }) tb.columns
            { tb with columns := cols }) s.tables⟩

/-- tables.py:239. -/
def change_column_type (s : InMemoryTables) (table_name column_name : String)
    (new_type : ColumnType) : Except String InMemoryTables :=
  match s.get_table table_name with
  | none => .error s!"Table {table_name} not found"
  | some t =>
      match t.get_column column_name with
      | none => .error s!"Column {column_name} not found in table {table_name}"
      | some _ => .ok ⟨modifyFirst (fun tb => tb.name = table_name)
          (fun tb =>
            let cols := modifyFirst (fun c => c.name = column_name)
              (fun c => { c with type := new_type }) tb.columns
            { tb with columns := cols }) s.tables⟩

/-- tables.py:250. -/
def insert (s : InMemoryTables) (table : String) (row : Row) :
    Except String InMemoryTables :=
  match s.get_table table with
  | none => .error s!"Table {table} not found"
  | some _ => .ok ⟨modifyFirst (fun tb => tb.name = table)
      (fun tb => { tb with data := tb.data ++ [row] }) s.tables⟩

/-- tables.py:256: no missing-table check (Python raises
`AttributeError` on `None`); `data[idx]` uses Python indexing. -/
def update (s : InMemoryTables) (table : String) (idx : Int) (changes : Row) :
    Except String InMemoryTables :=
  match s.get_table table with
  | none => .error "AttributeError: NoneType object has no attribute data"
  | some t =>
      match pyIndex t.data.length idx with
      | none => .error "IndexError: list index out of range"
      | some j => .ok ⟨modifyFirst (fun tb => tb.name = table)
          (fun tb =>
            let rows := tb.data.set j (dictMerge (tb.data.getD j []) changes)
            { tb with data := rows }) s.tables⟩

/-- tables.py:260: keep the rows whose position is not listed. -/
def delete (s : InMemoryTables) (table : String) (idxs : List Int) :
    Except String InMemoryTables :=
  match s.get_table table with
  | none => .error s!"Table {table} not found"
  | some _ => .ok ⟨modifyFirst (fun tb => tb.name = table)
      (fun tb => { tb with data :=
          ((tb.data.enum.filter (fun ir => (ir.1 : Int) ∉ idxs)).map Prod.snd) }) s.tables⟩

end InMemoryTables

/-- The mutating half of the `ITablesSnapshot` contract (tables.py:119),
as a record of operations over a store state `σ`: `ExtendedTables` wraps
an arbitrary underlying snapshot through this interface. -/
structure SnapshotOps (σ : Type) where
  get_table : σ → String → Except String (Option Table)
  rename_table : σ → String → String → Except String σ
  add_column : σ → String → Column → Except String σ
  remove_column : σ → String → String → Except String σ
  rename_column : σ → String → String → String → Except String σ
  change_column_type : σ → String → String → ColumnType → Except String σ
  insert : σ → String → Row → Except String σ
  update : σ → String → Int → Row → Except String σ
  delete : σ → String → List Int → Except String σ

/-- The `SnapshotOps` record of `InMemoryTables` (its `get_table` never
raises). -/
def inMemoryOps : SnapshotOps InMemoryTables where
  get_table s n := .ok (s.get_table n)
  rename_table := InMemoryTables.rename_table
  add_column := InMemoryTables.add_column
  remove_column := InMemoryTables.remove_column
  rename_column := InMemoryTables.rename_column
  change_column_type := InMemoryTables.change_column_type
  insert := InMemoryTables.insert
  update := InMemoryTables.update
  delete := InMemoryTables.delete

/-- `ExtendedTables` (tables.py:751): an underlying snapshot plus overlay
tables. -/
structure ExtendedTables (σ : Type) where
  snapshot : σ
  extra_tables : List Table

namespace ExtendedTables

variable {σ : Type} (ops : SnapshotOps σ)

/-- tables.py:759: the underlying snapshot is consulted first, the
overlay only as a fallback. -/
def get_table (et : ExtendedTables σ) (name : String) :
    Except String (Option Table) := do
  match ← ops.get_table et.snapshot name with
  | some t => pure (some t)
  | none => pure (et.extra_tables.find? (fun t => t.name = name))

/-- tables.py:768: always appended to the overlay. -/
def add_table (et : ExtendedTables σ) (t : Table) : ExtendedTables σ :=
  { et with extra_tables := et.extra_tables ++ [t] }

/-- tables.py:771: filters the overlay only. -/
def remove_table (et : ExtendedTables σ) (name : String) : ExtendedTables σ :=
  { et with extra_tables := et.extra_tables.filter (fun t => t.name ≠ name) }

/-- The `for table in self.extra_tables: if table.name == ...` overlay
pattern: mutate the first overlay table satisfying `p` and return. -/
def overlayModify (et : ExtendedTables σ) (p : Table → Bool) (f : Table → Table) :
    ExtendedTables σ :=
  { et with extra_tables := modifyFirst p f et.extra_tables }

/-- tables.py:774: first matching overlay table, else the snapshot. -/
def rename_table (et : ExtendedTables σ) (old_name new_name : String) :
    Except String (ExtendedTables σ) :=
  if et.extra_tables.any (fun t => t.name = old_name) then
    .ok (overlayModify et (fun t => t.name = old_name)
      (fun t => { t with name := new_name }))
  else do
    let s ← ops.rename_table et.snapshot old_name new_name
    pure { et with snapshot := s }

/-- tables.py:781: on an overlay hit, append the column and set its
default on every row; else fall back to the snapshot. -/
def add_column (et : ExtendedTables σ) (table_name : String) (c : Column) :
    Except String (ExtendedTables σ) :=
  if et.extra_tables.any (fun t => t.name = table_name) then
    .ok (overlayModify et (fun t => t.name = table_name)
      (fun t =>
        let rows := t.data.map (fun row => dictSet row c.name c.default)
        { t with columns := t.columns ++ [c], data := rows }))
  else do
    let s ← ops.add_column et.snapshot table_name c
    pure { et with snapshot := s }

/-- tables.py:791. -/
def remove_column (et : ExtendedTables σ) (table_name column_name : String) :
    Except String (ExtendedTables σ) :=
  if et.extra_tables.any (fun t => t.name = table_name) then
    .ok (overlayModify et (fun t => t.name = table_name)
      (fun t =>
        let cols := t.columns.filter (fun c => c.name ≠ column_name)
        let rows := t.data.map (fun row => dictRemove row column_name)
        { t with columns := cols, data := rows }))
  else do
    let s ← ops.remove_column et.snapshot table_name column_name
    pure { et with snapshot := s }

/-- tables.py:804: rename the first matching column of the first matching
overlay table and re-key every row (`row[new] = row.pop(old)` appends the
new key at the end). -/
def rename_column (et : ExtendedTables σ) (table_name old_name new_name : String) :
    Except String (ExtendedTables σ) :=
  if et.extra_tables.any (fun t => t.name = table_name) then
    .ok (overlayModify et (fun t => t.name = table_name)
      (fun t =>
        let cols := modifyFirst (fun c => c.name = old_name)
          (fun c => { c with name := new_name }) t.columns
        let rows := t.data.map (fun row =>
          match dictLookup row old_name with
          | some v => dictSet (dictRemove row old_name) new_name v
          | none => row)
        { t with columns := cols, data := rows }))
  else do
    let s ← ops.rename_column et.snapshot table_name old_name new_name
    pure { et with snapshot := s }

/-- tables.py:819: the overlay loop only returns after actually setting a
column type, so an overlay table lacking the column falls through to the
underlying snapshot. -/
def change_column_type (et : ExtendedTables σ) (table_name column_name : String)
    (new_type : ColumnType) : Except String (ExtendedTables σ) :=
  if et.extra_tables.any (fun t =>
      t.name = table_name && t.columns.any (fun c => c.name = column_name)) then
    .ok (overlayModify et
      (fun t => t.name = table_name && t.columns.any (fun c => c.name = column_name))
      (fun t =>
        let cols := modifyFirst (fun c => c.name = column_name)
          (fun c => { c with type := new_type }) t.columns
        { t with columns := cols }))
  else do
    let s ← ops.change_column_type et.snapshot table_name column_name new_type
    pure { et with snapshot := s }

/-- tables.py:830: append to the first matching overlay table, else the
snapshot. -/
def insert (et : ExtendedTables σ) (table_name : String) (row : Row) :
    Except String (ExtendedTables σ) :=
  if et.extra_tables.any (fun t => t.name = table_name) then
    .ok (overlayModify et (fun t => t.name = table_name)
      (fun t => { t with data := t.data ++ [row] }))
  else do
    let s ← ops.insert et.snapshot table_name row
    pure { et with snapshot := s }

/-- tables.py:837: Python indexing into the overlay table's rows. -/
def update (et : ExtendedTables σ) (table_name : String) (idx : Int) (changes : Row) :
    Except String (ExtendedTables σ) :=
  match et.extra_tables.find? (fun t => t.name = table_name) with
  | some t =>
      (match pyIndex t.data.length idx with
       | none => .error "IndexError: list index out of range"
       | some j => .ok (overlayModify et (fun tb => tb.name = table_name)
           (fun tb =>
             let rows := tb.data.set j (dictMerge (tb.data.getD j []) changes)
             { tb with data := rows })))
  | none => do
      let s ← ops.update et.snapshot table_name idx changes
      pure { et with snapshot := s }

/-- tables.py:844: delete the listed indices from the first matching
overlay table, descending, silently skipping out-of-range ones; else fall
back to the snapshot. -/
def delete (et : ExtendedTables σ) (table_name : String) (idxs : List Int) :
    Except String (ExtendedTables σ) :=
  if et.extra_tables.any (fun t => t.name = table_name) then
    .ok (overlayModify et (fun t => t.name = table_name)
      (fun t =>
        let rows := (idxs.insertionSort (fun a b => b ≤ a)).foldl (fun rows i =>
          if 0 ≤ i ∧ i < (rows.length : Int) then rows.eraseIdx i.toNat else rows) t.data
        { t with data := rows }))
  else do
    let s ← ops.delete et.snapshot table_name idxs
    pure { et with snapshot := s }

end ExtendedTables

/-- `FileSystemJsonTables.delete` (tables.py:463), at the level of the
decoded row array: the indices are visited in descending order, each
checked against the current (shrinking) row list and deleted in memory;
the file is rewritten only after the loop finishes, so an error leaves
the backing file untouched.  The result is the row array written back. -/
def jsonDeleteRows (rows : List Row) (idxs : List Int) : Except String (List Row) :=
  foldE (fun rs idx =>
    if idx < 0 ∨ (rs.length : Int) ≤ idx then
      .error s!"Index {idx} out of range for table"
    else
      .ok (rs.eraseIdx idx.toNat))
    rows (idxs.insertionSort (fun a b => b ≤ a))

/-- `FileSystemJsonTables.update` (tables.py:450): bounds check, then
merge the changes into the addressed row. -/
def jsonUpdateRows (rows : List Row) (idx : Int) (changes : Row) :
    Except String (List Row) :=
  if idx < 0 ∨ (rows.length : Int) ≤ idx then
    .error s!"Index {idx} out of range for table"
  else
    .ok (rows.set idx.toNat (dictMerge (rows.getD idx.toNat []) changes))

/-- `FileSystemJsonLTables.update` (tables.py:714), at the level of the
decoded row lines: the changes are merged into the row at position `idx`
while re-reading the file, the bounds check happens after the read loop
and before the write, so an out-of-range index raises and leaves the file
untouched. -/
def jsonlUpdateRows (rows : List Row) (idx : Int) (changes : Row) :
    Except String (List Row) :=
  let newRows := rows.enum.map (fun ir =>
    if (ir.1 : Int) = idx then dictMerge ir.2 changes else ir.2)
  if idx < 0 ∨ (rows.length : Int) ≤ idx then
    .error s!"Index {idx} out of range for table"
  else
    .ok newRows

/-- `FileSystemJsonLTables.delete` (tables.py:735): keep the lines whose
position is not listed; there is no bounds check of any kind, so the
operation always succeeds. -/
def jsonlDeleteRows (rows : List Row) (idxs : List Int) : Except String (List Row) :=
  .ok ((rows.enum.filter (fun ir => (ir.1 : Int) ∉ idxs)).map Prod.snd)

/-! ## General lemmas about the effectful combinators -/

@[simp] theorem ok_bind (a : α) (f : α → Except String β) :
    (Except.ok a >>= f) = f a := rfl

@[simp] theorem error_bind (e : String) (f : α → Except String β) :
    ((Except.error e : Except String α) >>= f) = .error e := rfl

@[simp] theorem ok_map (a : α) (f : α → β) :
    (f <$> (Except.ok a : Except String α)) = .ok (f a) := rfl

@[simp] theorem error_map (e : String) (f : α → β) :
    (f <$> (Except.error e : Except String α)) = .error e := rfl

@[simp] theorem pure_eq_ok (a : α) : (pure a : Except String α) = .ok a := rfl

theorem mapE_length (f : α → Except String β) :
    ∀ {l : List α} {l' : List β}, mapE f l = .ok l' → l'.length = l.length := by
  intro l
  induction l with
  | nil => intro l' h; simp [mapE] at h; simp [← h]
  | cons a rest ih =>
      intro l' h
      simp only [mapE] at h
      cases hf : f a with
      | error e => rw [hf] at h; simp at h
      | ok b =>
          rw [hf] at h
          cases hm : mapE f rest with
          | error e => rw [hm] at h; simp at h
          | ok bs =>
              rw [hm] at h
              simp at h
              subst h
              simp [ih hm]

theorem foldE_invariant (P : σ → Prop) (f : σ → α → Except String σ) :
    ∀ {l : List α} {init out : σ},
      foldE f init l = .ok out →
      (∀ s a s', f s a = .ok s' → P s → P s') →
      P init → P out := by
  intro l
  induction l with
  | nil => intro init out h _ h0; simp [foldE] at h; rwa [← h]
  | cons a rest ih =>
      intro init out h hf h0
      simp only [foldE] at h
      cases hs : f init a with
      | error e => rw [hs] at h; simp at h
      | ok s₁ =>
          rw [hs] at h
          simp at h
          exact ih h hf (hf init a s₁ hs h0)

theorem foldE_append (f : σ → α → Except String σ) :
    ∀ (l₁ l₂ : List α) (init : σ),
      foldE f init (l₁ ++ l₂) =
        match foldE f init l₁ with
        | .ok s => foldE f s l₂
        | .error e => .error e := by
  intro l₁
  induction l₁ with
  | nil => intro l₂ init; simp [foldE]
  | cons a rest ih =>
      intro l₂ init
      simp only [List.cons_append, foldE]
      cases hs : f init a with
      | error e => simp [hs]
      | ok s₁ => simp [hs, ih]

/-- `find?` over a list split at the first match. -/
theorem find?_split (p : α → Bool) (pre : List α) (c : α) (post : List α)
    (hpre : ∀ x ∈ pre, p x = false) (hc : p c = true) :
    (pre ++ c :: post).find? p = some c := by
  induction pre with
  | nil => rw [List.nil_append, List.find?_cons_of_pos _ hc]
  | cons a rest ih =>
      have ha := hpre a (by simp)
      rw [List.cons_append, List.find?_cons_of_neg _ (by simp [ha])]
      exact ih (fun x hx => hpre x (by simp [hx]))

/-- `modifyFirst` over a list split at the first match. -/
theorem modifyFirst_split (p : α → Bool) (f : α → α) (pre : List α) (c : α) (post : List α)
    (hpre : ∀ x ∈ pre, p x = false) (hc : p c = true) :
    modifyFirst p f (pre ++ c :: post) = pre ++ f c :: post := by
  induction pre with
  | nil => simp [modifyFirst, hc]
  | cons a rest ih =>
      have ha := hpre a (by simp)
      simp only [List.cons_append, modifyFirst, ha]
      exact congrArg (a :: ·) (ih (fun x hx => hpre x (by simp [hx])))

/-- A `find?` hit splits the list at the first match. -/
theorem find?_eq_some_split (p : α → Bool) :
    ∀ (l : List α) (c : α), l.find? p = some c →
      ∃ pre post, l = pre ++ c :: post ∧ (∀ x ∈ pre, p x = false) ∧ p c = true := by
  intro l
  induction l with
  | nil => intro c h; simp [List.find?] at h
  | cons a rest ih =>
      intro c h
      by_cases ha : p a = true
      · rw [List.find?_cons_of_pos _ ha] at h
        have hac : a = c := by injection h
        subst hac
        exact ⟨[], rest, by simp, by simp, ha⟩
      · rw [List.find?_cons_of_neg _ ha] at h
        obtain ⟨pre, post, heq, hpre, hc⟩ := ih c h
        refine ⟨a :: pre, post, by simp [heq], ?_, hc⟩
        intro x hx
        rcases List.mem_cons.mp hx with hx | hx
        · rw [hx]; exact Bool.not_eq_true _ ▸ ha
        · exact hpre x hx

/-! ## C7: division by zero -/

/-- C7: for every division expression whose operands evaluate to numeric
values with the right operand equal to zero, evaluation fails with the
division-by-zero error and never returns a value. -/
theorem divide_by_zero_errors (e₁ e₂ : Expression) (ctx : Ctx) (v₁ v₂ : Value)
    (h₁ : apply_expression e₁ ctx = .ok v₁)
    (h₂ : apply_expression e₂ ctx = .ok v₂)
    (hn₁ : v₁.isNum = true) (hn₂ : v₂.isNum = true)
    (hz : v₂.num = 0) :
    apply_expression (.divide e₁ e₂) ctx = .error "Division by zero" := by
  simp [apply_expression, h₁, h₂, hn₁, hn₂, hz]

/-- Witness for C7 at `1 / 0`. -/
theorem divide_by_zero_errors_witness :
    apply_expression (.divide (.intLit 1) (.intLit 0)) [] = .error "Division by zero" :=
  divide_by_zero_errors (.intLit 1) (.intLit 0) [] (.int 1) (.int 0)
    rfl rfl rfl rfl (by norm_num [Value.num])

/-! ## C1: the aggregate evaluator only implements `count` -/

/-- C1: over a group whose `col` values are `[1, 2, null, 3]`, evaluating
`sum(col)`, `avg(col)`, `min(col)` and `max(col)` does not succeed: each
call is classified as an aggregate and then raises the
unknown-aggregate-function error, although the repository's own tests
(`eval_test.py`) expect 6, 2, 1 and 3 respectively. -/
theorem sum_avg_min_max_raise_unknown_aggregate :
    (apply_expression (.call "sum" [.name "col"])
        [(groupedRowsKey, Value.list [.obj [("col", .int 1)], .obj [("col", .int 2)],
          .obj [("col", .null)], .obj [("col", .int 3)]])]
      = .error "Unknown aggregate function: sum")
    ∧ (apply_expression (.call "avg" [.name "col"])
        [(groupedRowsKey, Value.list [.obj [("col", .int 1)], .obj [("col", .int 2)],
          .obj [("col", .null)], .obj [("col", .int 3)]])]
      = .error "Unknown aggregate function: avg")
    ∧ (apply_expression (.call "min" [.name "col"])
        [(groupedRowsKey, Value.list [.obj [("col", .int 1)], .obj [("col", .int 2)],
          .obj [("col", .null)], .obj [("col", .int 3)]])]
      = .error "Unknown aggregate function: min")
    ∧ (apply_expression (.call "max" [.name "col"])
        [(groupedRowsKey, Value.list [.obj [("col", .int 1)], .obj [("col", .int 2)],
          .obj [("col", .null)], .obj [("col", .int 3)]])]
      = .error "Unknown aggregate function: max") := by
  refine ⟨?_, ?_, ?_, ?_⟩ <;>
  · simp only [apply_expression]
    rw [if_pos (by decide), if_neg (by decide)]
    rfl

/-! ## C8: `count(*)` and `count(col)` -/

/-- The pure content of `countNonNull`: a row counts when the key is
present with a non-null value. -/
def rowCounts (col : String) (r : Row) : Bool :=
  match dictLookup r col with
  | some .null => false
  | some _ => true
  | none => false

theorem countNonNull_ok (col : String) :
    ∀ rows : List Row, countNonNull col (rows.map Value.obj) = .ok (rows.countP (rowCounts col)) := by
  intro rows
  induction rows with
  | nil => simp [countNonNull, List.countP, List.countP.go]
  | cons r rest ih =>
      simp only [List.map_cons, countNonNull, ih, ok_bind]
      rw [List.countP_cons]
      cases h : dictLookup r col with
      | none => simp [rowCounts, h]
      | some v =>
          cases v <;> simp [rowCounts, h, Nat.add_comm]

/-- C8: with the reserved group bucket bound to the rows of the current
group, `count(*)` returns the group's row count and `count(col)` returns
the number of member rows in which `col` is present and non-null. -/
theorem count_star_and_count_col (ctx : Ctx) (rows : List Row) (col : String)
    (hg : dictLookup ctx groupedRowsKey = some (.list (rows.map Value.obj))) :
    apply_expression (.call "count" [.wildcard]) ctx = .ok (.int (rows.map Value.obj).length)
    ∧ apply_expression (.call "count" [.name col]) ctx
        = .ok (.int (rows.countP (rowCounts col))) := by
  constructor
  · simp only [apply_expression]
    rw [if_pos (by decide), if_pos (by decide)]
    simp [hg]
  · simp only [apply_expression]
    rw [if_pos (by decide), if_pos (by decide)]
    simp [hg, countNonNull_ok]

/-- Witness for C8 over the group `[1, 2, null, 3]`: `count(*)` is 4 and
`count(col)` is 3. -/
theorem count_star_and_count_col_witness :
    apply_expression (.call "count" [.wildcard])
        [(groupedRowsKey, Value.list [.obj [("col", .int 1)], .obj [("col", .int 2)],
          .obj [("col", .null)], .obj [("col", .int 3)]])]
      = .ok (.int 4)
    ∧ apply_expression (.call "count" [.name "col"])
        [(groupedRowsKey, Value.list [.obj [("col", .int 1)], .obj [("col", .int 2)],
          .obj [("col", .null)], .obj [("col", .int 3)]])]
      = .ok (.int 3) := by
  have h := count_star_and_count_col
    [(groupedRowsKey, Value.list [.obj [("col", .int 1)], .obj [("col", .int 2)],
      .obj [("col", .null)], .obj [("col", .int 3)]])]
    [[("col", .int 1)], [("col", .int 2)], [("col", .null)], [("col", .int 3)]]
    "col" rfl
  exact ⟨h.1, h.2⟩

/-! ## C6: WHERE keeps boolean-true rows, drops boolean-false rows, and
fails on the first non-boolean predicate value -/

/-- C6: for every WHERE clause, the executor keeps exactly the rows whose
predicate evaluates to the boolean `True` and drops those evaluating to
the boolean `False` (first conjunct), and raises on the first row whose
predicate evaluates to a non-boolean value, with no coercion (second
conjunct). -/
theorem where_keeps_true_drops_false_fails_nonbool (w : Where) (ctx : Ctx) :
    (∀ data : List Row,
        (∀ row ∈ data, ∃ b, apply_expression w.expression (dictMerge ctx row) = .ok (.bool b)) →
        apply_where w data ctx = .ok (data.filter (fun row =>
          match apply_expression w.expression (dictMerge ctx row) with
          | .ok (.bool true) => true
          | _ => false)))
    ∧ (∀ (pre : List Row) (row : Row) (rest : List Row) (v : Value),
        (∀ r ∈ pre, ∃ b, apply_expression w.expression (dictMerge ctx r) = .ok (.bool b)) →
        apply_expression w.expression (dictMerge ctx row) = .ok v →
        (∀ b, v ≠ .bool b) →
        apply_where w (pre ++ row :: rest) ctx = .error "Where expressions should return bool") := by
  constructor
  · intro data
    induction data with
    | nil => intro _; simp [apply_where]
    | cons r rest ih =>
        intro h
        obtain ⟨b, hb⟩ := h r (by simp)
        have hrest := ih (fun x hx => h x (by simp [hx]))
        cases b with
        | true =>
            simp only [apply_where, hb, ok_bind, hrest, List.filter_cons]
            simp [hb]
        | false =>
            simp only [apply_where, hb, ok_bind, hrest, List.filter_cons]
            simp [hb]
  · intro pre
    induction pre with
    | nil =>
        intro row rest v hpre hv hnb
        simp only [List.nil_append, apply_where, hv, ok_bind]
        cases v with
        | bool b => exact absurd rfl (hnb b)
        | null => rfl
        | int n => rfl
        | float q => rfl
        | str s => rfl
        | list vs => rfl
        | obj fs => rfl
    | cons r pre' ih =>
        intro row rest v hpre hv hnb
        obtain ⟨b, hb⟩ := hpre r (by simp)
        have htail := ih row rest v (fun x hx => hpre x (by simp [hx])) hv hnb
        cases b with
        | true =>
            simp only [List.cons_append, apply_where, hb, ok_bind]
            rw [show pre'.append (row :: rest) = pre' ++ row :: rest from rfl, htail]
            rfl
        | false =>
            simp only [List.cons_append, apply_where, hb, ok_bind]
            rw [show pre'.append (row :: rest) = pre' ++ row :: rest from rfl, htail]

/-- Witness for C6: over the rows `[{x: true}, {x: false}]` the filter
keeps exactly the first row, and making the third row evaluate to the
integer 1 raises. -/
theorem where_keeps_true_drops_false_fails_nonbool_witness :
    apply_where ⟨.name "x"⟩ [[("x", .bool true)], [("x", .bool false)]] []
      = .ok [[("x", .bool true)]]
    ∧ apply_where ⟨.name "x"⟩
        [[("x", .bool true)], [("x", .bool false)], [("x", .int 1)]] []
      = .error "Where expressions should return bool" := by
  have h := where_keeps_true_drops_false_fails_nonbool ⟨.name "x"⟩ []
  constructor
  · have h1 := h.1 [[("x", .bool true)], [("x", .bool false)]] (by
      intro row hrow
      rcases List.mem_cons.mp hrow with hr | hrow
      · exact ⟨true, by rw [hr]; rfl⟩
      rcases List.mem_cons.mp hrow with hr | hrow
      · exact ⟨false, by rw [hr]; rfl⟩
      · simp at hrow)
    rw [h1]
    rfl
  · have h2 := h.2 [[("x", .bool true)], [("x", .bool false)]] [("x", .int 1)] []
      (.int 1)
      (by
        intro row hrow
        rcases List.mem_cons.mp hrow with hr | hrow
        · exact ⟨true, by rw [hr]; rfl⟩
        rcases List.mem_cons.mp hrow with hr | hrow
        · exact ⟨false, by rw [hr]; rfl⟩
        · simp at hrow)
      rfl
      (by intro b hb; cases hb)
    exact h2

/-! ## C9: in-memory column rename touches only the schema -/

/-- `find?` is unchanged when one non-matching element is replaced by
another non-matching element. -/
theorem find?_middle_congr (q : α → Bool) :
    ∀ (l₁ : List α) (l₂ : List α) (a b : α), q a = false → q b = false →
      (l₁ ++ a :: l₂).find? q = (l₁ ++ b :: l₂).find? q := by
  intro l₁
  induction l₁ with
  | nil =>
      intro l₂ a b ha hb
      rw [List.nil_append, List.nil_append, List.find?_cons_of_neg _ (by simp [ha]),
        List.find?_cons_of_neg _ (by simp [hb])]
  | cons c l₁' ih =>
      intro l₂ a b ha hb
      by_cases hc : q c = true
      · rw [List.cons_append, List.cons_append, List.find?_cons_of_pos _ hc,
          List.find?_cons_of_pos _ hc]
      · rw [List.cons_append, List.cons_append, List.find?_cons_of_neg _ hc,
          List.find?_cons_of_neg _ hc]
        exact ih l₂ a b ha hb

/-- C9: for the in-memory store, renaming an existing column of an
existing table replaces only that column's recorded name; the table's
rows (still keyed by the old name) and all other columns and tables are
untouched. -/
theorem in_memory_rename_column_schema_only
    (s : InMemoryTables) (tn old new_ : String) (t : Table)
    (pre post : List Column) (c : Column)
    (ht : s.get_table tn = some t)
    (hcols : t.columns = pre ++ c :: post)
    (hpre : ∀ x ∈ pre, x.name ≠ old)
    (hc : c.name = old) :
    ∃ s', s.rename_column tn old new_ = .ok s'
      ∧ s'.get_table tn = some { t with columns := pre ++ { c with name := new_ } :: post }
      ∧ (∀ n, n ≠ tn → s'.get_table n = s.get_table n) := by
  have hgc : t.get_column old = some c := by
    rw [Table.get_column, hcols]
    exact find?_split _ pre c post (fun x hx => by simp [hpre x hx]) (by simp [hc])
  obtain ⟨tpre, tpost, hsplit, htpre, htc⟩ := find?_eq_some_split _ s.tables t ht
  have htn : t.name = tn := by simpa using htc
  have hmod : modifyFirst (fun tb => tb.name = tn)
      (fun tb =>
        let cols := modifyFirst (fun cc => cc.name = old)
          (fun cc => { cc with name := new_ }) tb.columns
        { tb with columns := cols }) s.tables
      = tpre ++ { t with columns := pre ++ { c with name := new_ } :: post } :: tpost := by
    rw [hsplit, modifyFirst_split _ _ tpre t tpost htpre htc]
    have : modifyFirst (fun cc => cc.name = old) (fun cc => { cc with name := new_ })
        t.columns = pre ++ { c with name := new_ } :: post := by
      rw [hcols]
      exact modifyFirst_split _ _ pre c post (fun x hx => by simp [hpre x hx]) (by simp [hc])
    simp [this]
  refine ⟨⟨tpre ++ { t with columns := pre ++ { c with name := new_ } :: post } :: tpost⟩,
    ?_, ?_, ?_⟩
  · simp only [InMemoryTables.rename_column, ht, hgc, hmod]
  · simp only [InMemoryTables.get_table]
    refine find?_split _ tpre _ tpost htpre ?_
    simpa using htn
  · intro n hn
    simp only [InMemoryTables.get_table]
    rw [hsplit]
    refine find?_middle_congr _ tpre tpost _ t ?_ ?_ <;>
    · simp only [htn, decide_eq_false_iff_not]
      exact fun h => hn h.symm

/-- Witness for C9: renaming column `b` to `z` in a one-table store. -/
theorem in_memory_rename_column_schema_only_witness :
    ∃ s', InMemoryTables.rename_column
        ⟨[⟨"t", [⟨"a", .int, false, none, .null⟩, ⟨"b", .int, false, none, .null⟩],
          [[("a", .int 1), ("b", .int 2)]]⟩]⟩ "t" "b" "z" = .ok s'
      ∧ s'.get_table "t" = some ⟨"t",
          [⟨"a", .int, false, none, .null⟩, ⟨"z", .int, false, none, .null⟩],
          [[("a", .int 1), ("b", .int 2)]]⟩ := by
  obtain ⟨s', h1, h2, _⟩ := in_memory_rename_column_schema_only
    ⟨[⟨"t", [⟨"a", .int, false, none, .null⟩, ⟨"b", .int, false, none, .null⟩],
      [[("a", .int 1), ("b", .int 2)]]⟩]⟩ "t" "b" "z"
    ⟨"t", [⟨"a", .int, false, none, .null⟩, ⟨"b", .int, false, none, .null⟩],
      [[("a", .int 1), ("b", .int 2)]]⟩
    [⟨"a", .int, false, none, .null⟩] [] ⟨"b", .int, false, none, .null⟩
    rfl rfl (by intro x hx; simp at hx; simp [hx]) rfl
  exact ⟨s', h1, h2⟩

/-! ## C3: out-of-range row indices in the JSON-Lines backend -/

/-- Counterexample to C3: `delete` in the JSON-Lines backend performs no
bounds check at all — deleting index 5 from a one-row table succeeds and
leaves the row untouched instead of raising an index error. -/
theorem jsonl_delete_out_of_range_succeeds :
    jsonlDeleteRows [[("id", Value.int 1)]] [5] = .ok [[("id", Value.int 1)]] := by
  simp [jsonlDeleteRows, List.enum]

/-- C3 (amended): in the JSON-Lines backend, `update` with an out-of-range
index fails with the index error (matching the JSON backend), but
`delete` never fails: it silently drops the listed in-range positions and
ignores out-of-range ones (an all-out-of-range index list leaves the rows
unchanged). -/
theorem jsonl_update_index_error_delete_silent (rows : List Row) (idx : Int)
    (changes : Row) (idxs : List Int)
    (h : idx < 0 ∨ (rows.length : Int) ≤ idx) :
    jsonlUpdateRows rows idx changes = .error s!"Index {idx} out of range for table"
    ∧ (∃ out, jsonlDeleteRows rows idxs = .ok out)
    ∧ ((∀ i ∈ idxs, i < 0 ∨ (rows.length : Int) ≤ i) → jsonlDeleteRows rows idxs = .ok rows) := by
  refine ⟨?_, ⟨_, rfl⟩, ?_⟩
  · rw [jsonlUpdateRows, if_pos h]
  · intro hall
    rw [jsonlDeleteRows]
    have hfilter : rows.enum.filter (fun ir => decide ((ir.1 : Int) ∉ idxs)) = rows.enum := by
      refine List.filter_eq_self.mpr ?_
      intro ir hir
      obtain ⟨i, a⟩ := ir
      have hlt : i < rows.length :=
        (List.getElem?_eq_some.mp (List.mk_mem_enum_iff_getElem?.mp hir)).1
      simp only [decide_eq_true_eq]
      intro hmem
      rcases hall _ hmem with hneg | hge
      · omega
      · have : (i : Int) < (rows.length : Int) := by exact_mod_cast hlt
        omega
    rw [hfilter, List.enum_map_snd]

/-- Witness for C3's amended statement at a one-row table with index 5. -/
theorem jsonl_update_index_error_delete_silent_witness :
    jsonlUpdateRows [[("id", Value.int 1)]] 5 [("id", Value.int 9)]
      = .error "Index 5 out of range for table"
    ∧ jsonlDeleteRows [[("id", Value.int 1)]] [5] = .ok [[("id", Value.int 1)]] := by
  have h := jsonl_update_index_error_delete_silent [[("id", Value.int 1)]] 5
    [("id", Value.int 9)] [5] (by right; norm_num)
  refine ⟨?_, ?_⟩
  · have h1 := h.1
    rw [h1]
    rfl
  · exact h.2.2 (by intro i hi; simp at hi; subst hi; right; norm_num)

/-! ## C10: the JSON backend's delete raises before writing on any
out-of-range index -/

/-- The deletion loop of `FileSystemJsonTables.delete` errors whenever
some listed index is out of range for the current rows: row count only
shrinks, so such an index is still out of range when it is reached. -/
theorem json_delete_loop_error (l : List Int) :
    ∀ rows : List Row, (∃ i ∈ l, i < 0 ∨ (rows.length : Int) ≤ i) →
      ∃ msg, foldE (fun rs idx =>
        if idx < 0 ∨ (rs.length : Int) ≤ idx then
          Except.error s!"Index {idx} out of range for table"
        else
          .ok (rs.eraseIdx idx.toNat)) rows l = .error msg := by
  induction l with
  | nil => intro rows h; simp at h
  | cons a t ih =>
      intro rows h
      by_cases ha : a < 0 ∨ (rows.length : Int) ≤ a
      · refine ⟨s!"Index {a} out of range for table", ?_⟩
        simp [foldE, if_pos ha]
      · have hstep : (if a < 0 ∨ (rows.length : Int) ≤ a then
            Except.error s!"Index {a} out of range for table"
          else
            .ok (rows.eraseIdx a.toNat)) = .ok (rows.eraseIdx a.toNat) := if_neg ha
        obtain ⟨i, hmem, hbad⟩ := h
        have hit : i ∈ t := by
          rcases List.mem_cons.mp hmem with hia | hit
          · exact absurd (hia ▸ hbad) ha
          · exact hit
        have hbad' : i < 0 ∨ ((rows.eraseIdx a.toNat).length : Int) ≤ i := by
          rcases hbad with hneg | hge
          · exact Or.inl hneg
          · right
            have hle : (rows.eraseIdx a.toNat).length ≤ rows.length :=
              List.length_eraseIdx_le rows a.toNat
            have : ((rows.eraseIdx a.toNat).length : Int) ≤ (rows.length : Int) := by
              exact_mod_cast hle
            omega
        obtain ⟨msg, hmsg⟩ := ih (rows.eraseIdx a.toNat) ⟨i, hit, hbad'⟩
        exact ⟨msg, by simp [foldE, hstep, hmsg]⟩

/-- C10: the JSON backend's `delete` is atomic on error: if any listed
index is out of range for the table's current rows, the call fails with
an index error, and since the data file is rewritten only after the whole
loop has run, the file content is left unchanged. -/
theorem json_delete_out_of_range_errors (rows : List Row) (idxs : List Int)
    (h : ∃ i ∈ idxs, i < 0 ∨ (rows.length : Int) ≤ i) :
    ∃ msg, jsonDeleteRows rows idxs = .error msg := by
  rw [jsonDeleteRows]
  obtain ⟨i, hmem, hbad⟩ := h
  exact json_delete_loop_error _ rows
    ⟨i, (List.mem_insertionSort _).mpr hmem, hbad⟩

/-- Witness for C10: deleting indices `[0, 3]` from a one-row table
errors (3 is out of range) even though 0 is valid. -/
theorem json_delete_out_of_range_errors_witness :
    ∃ msg, jsonDeleteRows [[("id", Value.int 1)]] [0, 3] = .error msg :=
  json_delete_out_of_range_errors [[("id", Value.int 1)]] [0, 3]
    ⟨3, by simp, by right; norm_num⟩

/-! ## C4: overlay store read/write precedence -/

/-- Counterexample to C4: `change_column_type` on a table name present in
both layers mutates the *underlying snapshot* when the overlay's copy of
the table does not contain the named column — the overlay loop only
returns after actually setting a column, so it falls through.  Here the
overlay holds a column-less table `t` while the snapshot's `t` has column
`c`, and the call rewrites the snapshot. -/
theorem ext_change_column_type_falls_through_to_snapshot :
    ExtendedTables.change_column_type inMemoryOps
      ⟨⟨[⟨"t", [⟨"c", .int, false, none, .null⟩], []⟩]⟩, [⟨"t", [], []⟩]⟩
      "t" "c" .string
    = .ok ⟨⟨[⟨"t", [⟨"c", .string, false, none, .null⟩], []⟩]⟩, [⟨"t", [], []⟩]⟩
    ∧ (⟨[⟨"t", [⟨"c", .string, false, none, .null⟩], []⟩]⟩ : InMemoryTables)
      ≠ ⟨[⟨"t", [⟨"c", .int, false, none, .null⟩], []⟩]⟩ := by
  constructor
  · rfl
  · intro h
    have := congrArg InMemoryTables.tables h
    simp at this

/-- C4 (amended): for a table name present in both the underlying
snapshot and the overlay, `get_table` returns the snapshot's table, and
the mutating operations `insert`, `update`, `delete`, `add_column`,
`remove_column` and `rename_column` go to the overlay's table, leaving
the snapshot untouched; `change_column_type` does so only when the
overlay's copy actually contains the named column (otherwise it falls
through to the snapshot — see the counterexample). -/
theorem ext_reads_snapshot_mutations_hit_overlay {σ : Type}
    (ops : SnapshotOps σ) (et : ExtendedTables σ) (tn : String) (t : Table)
    (row changes : Row) (idx : Int) (idxs : List Int) (c : Column)
    (cn old_ new_ : String) (ty : ColumnType)
    (hsnap : ops.get_table et.snapshot tn = .ok (some t))
    (hover : et.extra_tables.any (fun tb => tb.name = tn) = true) :
    ExtendedTables.get_table ops et tn = .ok (some t)
    ∧ (∀ p f, (ExtendedTables.overlayModify et p f).snapshot = et.snapshot)
    ∧ ExtendedTables.insert ops et tn row
        = .ok (ExtendedTables.overlayModify et (fun tb => tb.name = tn)
            (fun tb => { tb with data := tb.data ++ [row] }))
    ∧ (∀ et', ExtendedTables.update ops et tn idx changes = .ok et' → et'.snapshot = et.snapshot)
    ∧ ExtendedTables.delete ops et tn idxs
        = .ok (ExtendedTables.overlayModify et (fun tb => tb.name = tn)
            (fun tb =>
              let rows := (idxs.insertionSort (fun a b => b ≤ a)).foldl (fun rows i =>
                if 0 ≤ i ∧ i < (rows.length : Int) then rows.eraseIdx i.toNat else rows) tb.data
              { tb with data := rows }))
    ∧ ExtendedTables.add_column ops et tn c
        = .ok (ExtendedTables.overlayModify et (fun tb => tb.name = tn)
            (fun tb =>
              let rows := tb.data.map (fun r => dictSet r c.name c.default)
              { tb with columns := tb.columns ++ [c], data := rows }))
    ∧ ExtendedTables.remove_column ops et tn cn
        = .ok (ExtendedTables.overlayModify et (fun tb => tb.name = tn)
            (fun tb =>
              let cols := tb.columns.filter (fun cc => cc.name ≠ cn)
              let rows := tb.data.map (fun r => dictRemove r cn)
              { tb with columns := cols, data := rows }))
    ∧ ExtendedTables.rename_column ops et tn old_ new_
        = .ok (ExtendedTables.overlayModify et (fun tb => tb.name = tn)
            (fun tb =>
              let cols := modifyFirst (fun cc => cc.name = old_)
                (fun cc => { cc with name := new_ }) tb.columns
              let rows := tb.data.map (fun r =>
                match dictLookup r old_ with
                | some v => dictSet (dictRemove r old_) new_ v
                | none => r)
              { tb with columns := cols, data := rows }))
    ∧ (et.extra_tables.any (fun tb => tb.name = tn
          && tb.columns.any (fun cc => cc.name = cn)) = true →
        ExtendedTables.change_column_type ops et tn cn ty
          = .ok (ExtendedTables.overlayModify et
              (fun tb => tb.name = tn && tb.columns.any (fun cc => cc.name = cn))
              (fun tb =>
                let cols := modifyFirst (fun cc => cc.name = cn)
                  (fun cc => { cc with type := ty }) tb.columns
                { tb with columns := cols }))) := by
  refine ⟨?_, ?_, ?_, ?_, ?_, ?_, ?_, ?_, ?_⟩
  · simp [ExtendedTables.get_table, hsnap]
  · intro p f; rfl
  · simp [ExtendedTables.insert, hover]
  · intro et' h
    obtain ⟨t₀, ht₀, hp₀⟩ := List.any_eq_true.mp hover
    unfold ExtendedTables.update at h
    rcases hf : et.extra_tables.find? (fun tb => tb.name = tn) with _ | t₁
    · rw [hf] at h
      exact absurd hp₀ (by simpa using (List.find?_eq_none.mp hf) t₀ ht₀)
    · rw [hf] at h
      dsimp only at h
      rcases hp : pyIndex t₁.data.length idx with _ | j
      · rw [hp] at h
        cases h
      · rw [hp] at h
        dsimp only at h
        injection h with h'
        rw [← h']
        rfl
  · simp [ExtendedTables.delete, hover]
  · simp [ExtendedTables.add_column, hover]
  · simp [ExtendedTables.remove_column, hover]
  · simp [ExtendedTables.rename_column, hover]
  · intro hcol
    simp [ExtendedTables.change_column_type, hcol]

/-- Witness for C4's amended statement: `t` lives in both layers;
`get_table` sees the snapshot's copy (with its row), `insert` succeeds
into the overlay and leaves the snapshot untouched. -/
theorem ext_reads_snapshot_mutations_hit_overlay_witness :
    ExtendedTables.get_table inMemoryOps
      ⟨⟨[⟨"t", [⟨"a", .int, false, none, .null⟩], [[("a", Value.int 1)]]⟩]⟩,
        [⟨"t", [⟨"a", .int, false, none, .null⟩], []⟩]⟩ "t"
      = .ok (some ⟨"t", [⟨"a", .int, false, none, .null⟩], [[("a", Value.int 1)]]⟩)
    ∧ (∃ et', ExtendedTables.insert inMemoryOps
        ⟨⟨[⟨"t", [⟨"a", .int, false, none, .null⟩], [[("a", Value.int 1)]]⟩]⟩,
          [⟨"t", [⟨"a", .int, false, none, .null⟩], []⟩]⟩ "t" [("a", Value.int 2)]
        = .ok et'
        ∧ et'.snapshot
          = ⟨[⟨"t", [⟨"a", .int, false, none, .null⟩], [[("a", Value.int 1)]]⟩]⟩) := by
  have h := ext_reads_snapshot_mutations_hit_overlay inMemoryOps
    ⟨⟨[⟨"t", [⟨"a", .int, false, none, .null⟩], [[("a", Value.int 1)]]⟩]⟩,
      [⟨"t", [⟨"a", .int, false, none, .null⟩], []⟩]⟩ "t"
    ⟨"t", [⟨"a", .int, false, none, .null⟩], [[("a", Value.int 1)]]⟩
    [("a", Value.int 2)] [] 0 [] ⟨"b", .int, false, none, .null⟩ "a" "a" "b" .string
    rfl rfl
  exact ⟨h.1, _, h.2.2.1, rfl⟩

/-! ## C2: queries with no FROM clause -/

theorem orderedInsertE_length (le : α → α → Except String Bool) (a : α) :
    ∀ {l : List α} {l' : List α}, orderedInsertE le a l = .ok l' →
      l'.length = l.length + 1 := by
  intro l
  induction l with
  | nil => intro l' h; simp [orderedInsertE] at h; simp [← h]
  | cons b rest ih =>
      intro l' h
      simp only [orderedInsertE] at h
      cases hle : le a b with
      | error e => rw [hle] at h; simp at h
      | ok c =>
          rw [hle] at h
          cases c with
          | true => simp at h; simp [← h]
          | false =>
              simp only [ok_bind, Bool.false_eq_true, if_false] at h
              cases hrec : orderedInsertE le a rest with
              | error e => rw [hrec] at h; simp at h
              | ok m =>
                  rw [hrec] at h
                  simp at h
                  simp [← h, ih hrec]

theorem insertionSortE_length (le : α → α → Except String Bool) :
    ∀ {l : List α} {l' : List α}, insertionSortE le l = .ok l' →
      l'.length = l.length := by
  intro l
  induction l with
  | nil => intro l' h; simp [insertionSortE] at h; simp [← h]
  | cons a rest ih =>
      intro l' h
      simp only [insertionSortE] at h
      cases hrec : insertionSortE le rest with
      | error e => rw [hrec] at h; simp at h
      | ok m =>
          rw [hrec] at h
          simp only [ok_bind] at h
          rw [orderedInsertE_length le a h, ih hrec]
          simp

theorem sortByOrderField_length (f : OrderField) (ctx : Ctx) (data out : List Row)
    (h : sortByOrderField f ctx data = .ok out) : out.length = data.length := by
  unfold sortByOrderField at h
  cases hp : mapE (fun row => do
      let k ← apply_expression f.expression (dictMerge ctx row)
      pure (row, k)) data with
  | error e => rw [hp] at h; simp at h
  | ok pairs =>
      rw [hp] at h
      simp only [ok_bind] at h
      cases hs : insertionSortE (sortPairLe (f.direction = "DESC")) pairs with
      | error e => rw [hs] at h; simp at h
      | ok sorted =>
          rw [hs] at h
          simp at h
          rw [← h]
          simp [insertionSortE_length _ hs, mapE_length _ hp]

theorem apply_order_by_length (ob : OrderBy) (data out : List Row) (ctx : Ctx)
    (h : apply_order_by ob data ctx = .ok out) : out.length = data.length := by
  refine foldE_invariant (fun d => d.length = data.length) _ h ?_ rfl
  intro s a s' hs hp
  show s'.length = data.length
  rw [sortByOrderField_length a ctx s s' hs]
  exact hp

theorem apply_group_by_singleton (gb : GroupBy) (row : Row) (ctx : Ctx)
    (out : List Row) (h : apply_group_by gb [row] ctx = .ok out) : out.length = 1 := by
  unfold apply_group_by at h
  cases hk : mapE (fun f => apply_expression f (dictMerge ctx row)) gb.fields with
  | error e =>
      rw [show mapE (fun r => do
          let key ← mapE (fun f => apply_expression f (dictMerge ctx r)) gb.fields
          pure (key, r)) [row] = .error e from by simp [mapE, hk]] at h
      simp at h
  | ok key =>
      rw [show mapE (fun r => do
          let key ← mapE (fun f => apply_expression f (dictMerge ctx r)) gb.fields
          pure (key, r)) [row] = .ok [(key, row)] from by simp [mapE, hk]] at h
      simp only [List.foldl, insertGroup, ok_bind] at h
      simp at h
      rw [← h]
      simp

theorem apply_select_fields_length (fields : List SelectField) (data out : List Row)
    (ctx : Ctx) (h : apply_select_fields fields data ctx = .ok out) :
    out.length = data.length :=
  mapE_length _ h

/-- Counterexample to C2: the Select with no FROM part but `WHERE false`
returns zero rows, not one. -/
theorem no_from_where_false_returns_no_rows :
    apply_select
      { field_parts := [⟨.intLit 1, none⟩], where_part := some ⟨.name "false"⟩ }
      ⟨fun _ => .ok none⟩ [] = .ok [] := by
  rfl

/-- Inversion for a successful `Except.bind`. -/
theorem bind_ok_inv {m : Except String α} {k : α → Except String β} {b : β}
    (h : m.bind k = .ok b) : ∃ a, m = .ok a ∧ k a = .ok b := by
  cases m with
  | error e => cases h
  | ok a => exact ⟨a, rfl, h⟩

/-- C2 (amended): a Select with no FROM, no WHERE and no LIMIT part that
executes successfully returns exactly one row (the pipeline starts from
the single empty row; grouping of a one-row list yields one pseudo-row,
ordering and projection preserve the row count; a WHERE or LIMIT clause
could shrink the result, and a failing expression aborts the query
instead of returning rows). -/
theorem no_from_no_where_no_limit_one_row (s : Select) (tables : TablesView)
    (ctx : Ctx) (out : List Row)
    (hf : s.from_part = none) (hw : s.where_part = none) (hl : s.limit_part = none)
    (hok : apply_select s tables ctx = .ok out) : out.length = 1 := by
  unfold apply_select at hok
  rw [hf, hw, hl] at hok
  obtain ⟨d0, h0, hok⟩ := bind_ok_inv hok
  have hd0 : d0 = [[]] := by
    rw [show apply_from none tables ctx = .ok [[]] from rfl] at h0
    injection h0 with h0
    exact h0.symm
  subst hd0
  obtain ⟨d1, h1, hok⟩ := bind_ok_inv hok
  have hd1 : d1 = [[]] := by
    injection h1 with h1
    exact h1.symm
  subst hd1
  obtain ⟨d2, h2, hok⟩ := bind_ok_inv hok
  have hd2 : d2.length = 1 := by
    rcases hg : s.group_part with _ | g
    · rw [hg] at h2
      dsimp only at h2
      by_cases himp : has_implicit_aggregation s.field_parts
      · rw [if_pos himp] at h2
        exact apply_group_by_singleton _ _ _ _ h2
      · rw [if_neg himp] at h2
        injection h2 with h2
        rw [← h2]
        rfl
    · rw [hg] at h2
      dsimp only at h2
      exact apply_group_by_singleton _ _ _ _ h2
  obtain ⟨d3, h3, hok⟩ := bind_ok_inv hok
  have hd3 : d3.length = 1 := by
    rcases ho : s.order_part with _ | o
    · rw [ho] at h3
      dsimp only at h3
      injection h3 with h3
      rw [← h3]
      exact hd2
    · rw [ho] at h3
      dsimp only at h3
      rw [apply_order_by_length o d2 d3 ctx h3]
      exact hd2
  dsimp only at hok
  by_cases hfp : s.field_parts.isEmpty
  · rw [if_pos hfp] at hok
    injection hok with hok
    rw [← hok]
    exact hd3
  · rw [if_neg hfp] at hok
    rw [apply_select_fields_length _ _ _ _ hok]
    exact hd3

/-! ## C5: multi-field ORDER BY as repeated stable sorts -/

/-- `orderedInsertE` computes `List.orderedInsert` when every comparison
against the list succeeds and agrees with a decidable relation. -/
theorem orderedInsertE_eq_pure (le : α → α → Except String Bool) (r : α → α → Prop)
    [DecidableRel r] (a : α) :
    ∀ l : List α, (∀ y ∈ l, le a y = .ok (decide (r a y))) →
      orderedInsertE le a l = .ok (List.orderedInsert r a l) := by
  intro l
  induction l with
  | nil => intro _; simp [orderedInsertE, List.orderedInsert]
  | cons b rest ih =>
      intro h
      have hb := h b (by simp)
      simp only [orderedInsertE, List.orderedInsert, hb, ok_bind]
      by_cases hr : r a b
      · simp [hr]
      · rw [ih (fun y hy => h y (by simp [hy]))]
        simp [hr]

/-- `insertionSortE` computes `List.insertionSort` when every pairwise
comparison succeeds and agrees with a decidable relation. -/
theorem insertionSortE_eq_pure (le : α → α → Except String Bool) (r : α → α → Prop)
    [DecidableRel r] :
    ∀ l : List α, (∀ x ∈ l, ∀ y ∈ l, le x y = .ok (decide (r x y))) →
      insertionSortE le l = .ok (List.insertionSort r l) := by
  intro l
  induction l with
  | nil => intro _; simp [insertionSortE, List.insertionSort]
  | cons a rest ih =>
      intro h
      simp only [insertionSortE, List.insertionSort]
      rw [ih (fun x hx y hy => h x (by simp [hx]) y (by simp [hy])), ok_bind]
      exact orderedInsertE_eq_pure le r a _ (fun y hy =>
        h a (by simp) y (by simp [(List.mem_insertionSort r).mp hy]))

/-- Stability of `orderedInsert` through `filter`: inserting an element
whose ties all relate to it keeps each tie class's relative order. -/
theorem filter_orderedInsert (r : α → α → Prop) [DecidableRel r] (p : α → Bool) (a : α) :
    ∀ l : List α, (∀ y ∈ l, p a = true → p y = true → r a y) →
      (List.orderedInsert r a l).filter p
        = if p a = true then a :: l.filter p else l.filter p := by
  intro l
  induction l with
  | nil =>
      intro _
      simp only [List.orderedInsert, List.filter]
      by_cases hp : p a = true <;> simp [hp]
  | cons b rest ih =>
      intro h
      simp only [List.orderedInsert]
      by_cases hr : r a b
      · rw [if_pos hr, List.filter_cons]
      · rw [if_neg hr, List.filter_cons,
          ih (fun y hy hpa hpy => h y (by simp [hy]) hpa hpy)]
        by_cases hpa : p a = true
        · have hpb : p b = false := by
            by_contra hpb
            exact hr (h b (by simp) hpa (by revert hpb; cases p b <;> simp))
          simp [hpa, hpb, List.filter_cons]
        · simp only [if_neg hpa, List.filter_cons]

/-- Stability of `insertionSort` through `filter`: a tie class (all of
whose members relate to each other both ways) comes out in its original
order. -/
theorem filter_insertionSort (r : α → α → Prop) [DecidableRel r] (p : α → Bool) :
    ∀ l : List α, (∀ x ∈ l, ∀ y ∈ l, p x = true → p y = true → r x y) →
      (List.insertionSort r l).filter p = l.filter p := by
  intro l
  induction l with
  | nil => intro _; simp
  | cons a rest ih =>
      intro h
      simp only [List.insertionSort]
      rw [filter_orderedInsert r p a _ (fun y hy hpa hpy =>
        h a (by simp) y (by simp [(List.mem_insertionSort r).mp hy]) hpa hpy)]
      rw [ih (fun x hx y hy hpx hpy => h x (by simp [hx]) y (by simp [hy]) hpx hpy)]
      rw [List.filter_cons]

/-- The ordering a single `ORDER BY` field imposes on rows through an
integer key: ascending, or descending under `DESC`; ties are unordered. -/
def lastKeyRel (desc : Bool) (keyOf : Row → Int) (a b : Row) : Prop :=
  if desc then keyOf b ≤ keyOf a else keyOf a ≤ keyOf b

instance (desc : Bool) (keyOf : Row → Int) : DecidableRel (lastKeyRel desc keyOf) :=
  fun a b => by unfold lastKeyRel; infer_instance

/-- `sortPairLe` agrees with `lastKeyRel` on decorated pairs carrying
integer keys. -/
theorem pyLt_int (m n : Int) :
    pyLt (Value.int m) (Value.int n) = .ok (decide (m < n)) := by
  rw [show pyLt (Value.int m) (Value.int n)
    = .ok (decide ((m : Rat) < (n : Rat))) from by
      simp [pyLt, Value.isNum, Value.num]]
  congr 1
  exact decide_eq_decide.mpr (by exact_mod_cast Iff.rfl)

theorem sortPairLe_agrees (desc : Bool) (keyOf : Row → Int) (x y : Row × Value)
    (hx : x.2 = .int (keyOf x.1)) (hy : y.2 = .int (keyOf y.1)) :
    sortPairLe desc x y = .ok (decide (lastKeyRel desc keyOf x.1 y.1)) := by
  unfold sortPairLe lastKeyRel
  rw [hx, hy]
  cases desc with
  | true =>
      simp only [eq_self_iff_true, if_true, pyLt_int, ok_bind, pure_eq_ok,
        Except.ok.injEq]
      rw [← decide_not]
      exact decide_eq_decide.mpr Int.not_lt
  | false =>
      simp only [Bool.false_eq_true, if_false, pyLt_int, ok_bind, pure_eq_ok,
        Except.ok.injEq]
      rw [← decide_not]
      exact decide_eq_decide.mpr Int.not_lt

/-- Key decoration: the one evaluation of the sort key per row, in list
order, that `data.sort(key=...)` performs. -/
theorem mapE_decorate (g : OrderField) (ctx : Ctx) (keyOf : Row → Int) :
    ∀ mid : List Row,
      (∀ row ∈ mid, apply_expression g.expression (dictMerge ctx row)
        = .ok (.int (keyOf row))) →
      mapE (fun row => do
        let k ← apply_expression g.expression (dictMerge ctx row)
        pure (row, k)) mid
        = .ok (mid.map (fun row => (row, Value.int (keyOf row)))) := by
  intro mid
  induction mid with
  | nil => intro _; simp [mapE]
  | cons a rest ih =>
      intro h
      simp only [mapE]
      rw [h a (by simp)]
      rw [ih (fun x hx => h x (by simp [hx]))]
      simp

/-- C5: with two or more ordering fields the executor runs one stable
sort per field in declared order, so the *last* declared field is the
primary sort key and the earlier fields only break its ties: sorting by
`fs ++ [g]` is sorting by `fs` followed by one stable sort by `g`
(first conjunct); the final row list is sorted by `g`'s key (second
conjunct); and within each tie class of `g`'s key the rows keep exactly
the order the earlier fields gave them (third conjunct).  Stated for an
integer-valued key, where Python's comparisons all succeed. -/
theorem order_by_last_field_dominates
    (fs : List OrderField) (g : OrderField) (data : List Row) (ctx : Ctx)
    (keyOf : Row → Int) (mid r : List Row)
    (hmid : apply_order_by ⟨fs⟩ data ctx = .ok mid)
    (hr : apply_order_by ⟨fs ++ [g]⟩ data ctx = .ok r)
    (hkey : ∀ row ∈ mid, apply_expression g.expression (dictMerge ctx row)
        = .ok (.int (keyOf row))) :
    sortByOrderField g ctx mid = .ok r
    ∧ r.Sorted (lastKeyRel (decide (g.direction = "DESC")) keyOf)
    ∧ (∀ k : Int, r.filter (fun row => keyOf row == k)
        = mid.filter (fun row => keyOf row == k)) := by
  have hsf : sortByOrderField g ctx mid = .ok r := by
    unfold apply_order_by at hmid hr
    dsimp only at hmid hr
    rw [foldE_append (fun d f => sortByOrderField f ctx d) fs [g] data, hmid] at hr
    dsimp only at hr
    cases hsf : sortByOrderField g ctx mid with
    | error e =>
        rw [show foldE (fun d f => sortByOrderField f ctx d) mid [g] = .error e from by
          simp [foldE, hsf]] at hr
        cases hr
    | ok s =>
        rw [show foldE (fun d f => sortByOrderField f ctx d) mid [g] = .ok s from by
          simp [foldE, hsf]] at hr
        exact hr
  refine ⟨hsf, ?_⟩
  unfold sortByOrderField at hsf
  rw [mapE_decorate g ctx keyOf mid hkey] at hsf
  simp only [ok_bind] at hsf
  set dsc := decide (g.direction = "DESC") with hdsc
  set pairs := mid.map (fun row => (row, Value.int (keyOf row))) with hpairs
  have hkeys : ∀ x ∈ pairs, x.2 = Value.int (keyOf x.1) := by
    intro x hx
    rw [hpairs] at hx
    obtain ⟨row, _, hrow⟩ := List.mem_map.mp hx
    rw [← hrow]
  have hsort : insertionSortE (sortPairLe dsc) pairs
      = .ok (List.insertionSort (fun p q => lastKeyRel dsc keyOf p.1 q.1) pairs) :=
    insertionSortE_eq_pure _ _ pairs (fun x hx y hy =>
      sortPairLe_agrees dsc keyOf x y (hkeys x hx) (hkeys y hy))
  rw [hsort] at hsf
  simp only [ok_bind, pure_eq_ok, Except.ok.injEq] at hsf
  haveI htot : IsTotal (Row × Value) (fun p q => lastKeyRel dsc keyOf p.1 q.1) := ⟨by
    intro p q
    unfold lastKeyRel
    by_cases hb : dsc = true
    · rw [if_pos hb, if_pos hb]; omega
    · rw [if_neg hb, if_neg hb]; omega⟩
  haveI htrans : IsTrans (Row × Value) (fun p q => lastKeyRel dsc keyOf p.1 q.1) := ⟨by
    intro p q s hpq hqs
    unfold lastKeyRel at hpq hqs ⊢
    by_cases hb : dsc = true
    · rw [if_pos hb] at hpq hqs ⊢; omega
    · rw [if_neg hb] at hpq hqs ⊢; omega⟩
  constructor
  · rw [← hsf]
    have hs := List.sorted_insertionSort
      (fun p q : Row × Value => lastKeyRel dsc keyOf p.1 q.1) pairs
    exact List.pairwise_map.mpr hs
  · intro k
    rw [← hsf]
    rw [List.filter_map Prod.fst (List.insertionSort _ pairs)]
    rw [filter_insertionSort (fun p q => lastKeyRel dsc keyOf p.1 q.1)
      ((fun row => keyOf row == k) ∘ Prod.fst) pairs ?_]
    · rw [hpairs]
      rw [List.filter_map (fun row => (row, Value.int (keyOf row))) mid]
      rw [List.map_map]
      rw [show ((fun row => keyOf row == k) ∘ Prod.fst)
          ∘ (fun row => (row, Value.int (keyOf row)))
          = (fun row => keyOf row == k) from rfl]
      rw [show (Prod.fst ∘ fun row : Row => (row, Value.int (keyOf row)))
          = id from rfl]
      rw [List.map_id]
    · intro x _ y _ hpx hpy
      have hx := beq_iff_eq.mp hpx
      have hy := beq_iff_eq.mp hpy
      unfold lastKeyRel
      by_cases hb : dsc = true
      · rw [if_pos hb, hx, hy]
      · rw [if_neg hb, hx, hy]

/-- Witness for C5: ordering `[a ASC, b ASC]` over three rows sorts
primarily by the later field `b` (the `a`-sorted intermediate list is
re-sorted stably by `b`). -/
theorem order_by_last_field_dominates_witness :
    sortByOrderField ⟨.name "b", "ASC"⟩ []
        [[("a", Value.int 1), ("b", Value.int 2)],
         [("a", Value.int 2), ("b", Value.int 1)],
         [("a", Value.int 3), ("b", Value.int 1)]]
      = .ok [[("a", Value.int 2), ("b", Value.int 1)],
             [("a", Value.int 3), ("b", Value.int 1)],
             [("a", Value.int 1), ("b", Value.int 2)]] := by
  have h := order_by_last_field_dominates [⟨.name "a", "ASC"⟩] ⟨.name "b", "ASC"⟩
    [[("a", Value.int 2), ("b", Value.int 1)],
     [("a", Value.int 1), ("b", Value.int 2)],
     [("a", Value.int 3), ("b", Value.int 1)]] []
    (fun row => match dictLookup row "b" with | some (.int n) => n | _ => 0)
    [[("a", Value.int 1), ("b", Value.int 2)],
     [("a", Value.int 2), ("b", Value.int 1)],
     [("a", Value.int 3), ("b", Value.int 1)]]
    [[("a", Value.int 2), ("b", Value.int 1)],
     [("a", Value.int 3), ("b", Value.int 1)],
     [("a", Value.int 1), ("b", Value.int 2)]]
    rfl rfl ?_
  · exact h.1
  · intro row hrow
    rcases List.mem_cons.mp hrow with h1 | hrow
    · rw [h1]; rfl
    rcases List.mem_cons.mp hrow with h1 | hrow
    · rw [h1]; rfl
    rcases List.mem_cons.mp hrow with h1 | hrow
    · rw [h1]; rfl
    · simp at hrow

/-- Witness for C2's amended statement: `SELECT 1+1` (no FROM, WHERE or
LIMIT) returns exactly one row. -/
theorem no_from_no_where_no_limit_one_row_witness :
    ∃ out, apply_select { field_parts := [⟨.plus (.intLit 1) (.intLit 1), none⟩] }
        ⟨fun _ => .ok none⟩ [] = .ok out ∧ out.length = 1 := by
  refine ⟨[[("?column?", Value.int 2)]], ?_, ?_⟩
  · rfl
  · exact no_from_no_where_no_limit_one_row
      { field_parts := [⟨.plus (.intLit 1) (.intLit 1), none⟩] }
      ⟨fun _ => .ok none⟩ [] [[("?column?", Value.int 2)]] rfl rfl rfl (by rfl)

end JsonSql
